import Mathlib

/-!
# Verification of the VK user-segment management service core

Shallow embedding of the segment/membership logic of `src/src/App.jsx`
(the React component `App`).  The two pieces of state are:

* `segments : List Segment` — the Segment Store (`useState([])` plus the
  handlers `handleCreateSegment`, `handleUpdateSegment`, `handleDeleteSegment`);
* `userSegments : MembershipIndex` — the Membership Index, a JavaScript
  object mapping user-id *strings* to arrays of segment-id strings
  (`useState({})` plus `handleAddUserToSegment`, `handleRemoveUserFromSegment`,
  `handleAssignRandomUsers`, and the lookup in `UserSegmentLookup`).

A JavaScript object is modelled as an association list whose keys are unique
(JS objects cannot carry a duplicate key); `jsGet`/`jsSet`/`jsDelete` mirror
`prev[k] || []`, `{ ...prev, [k]: v }` and `delete newState[k]`.  Numeric
indices such as `newSegmentsState[userId]` for `userId : Nat` are coerced by
JavaScript to their decimal string, i.e. `toString userId`.

Each handler body runs inside `setTimeout`/`setLoading` scaffolding that has
no domain meaning; the embedding keeps only the state transformation.  An
early `showMessage(..., 'error')` return is an error outcome that leaves the
state untouched, so a handler returns `Except AppError newState`.  The fresh
id (`generateId()`) and the timestamps (`new Date().toISOString()`) are
external inputs and are passed as explicit arguments.
-/

/-- A segment record, as built by `handleCreateSegment` in `App.jsx`:
`{ id, name, description, createdAt, updatedAt }`. -/
structure Segment where
  id : String
  name : String
  description : String
  createdAt : String
  updatedAt : String
deriving Repr, DecidableEq

/-- Error kinds of the spec (§7).  The code reports errors through
`showMessage(msg, 'error')`; the empty-name and missing-argument and
percentage-range branches are `validationError`, the name-collision branches
are `duplicateNameError`.  `notFoundError` is in the spec's vocabulary but,
as the theorems below show, no code path produces it. -/
inductive AppError where
  | validationError : AppError
  | duplicateNameError : AppError
  | notFoundError : AppError
deriving Repr, DecidableEq

/-- The membership index `userSegments`: a JS object from user-id strings to
arrays of segment-id strings, as an association list with unique keys. -/
abbrev MembershipIndex := List (String × List String)

deriving instance DecidableEq for Except

/-- Model of `prev[k] || []`: value stored at key `k`, or `[]` when the key is absent. -/
def jsGet (m : MembershipIndex) (k : String) : List String :=
  ((m.find? (fun e => e.1 == k)).map Prod.snd).getD []

/-- Model of `k in prev`: whether the object has key `k`. -/
def jsHasKey (m : MembershipIndex) (k : String) : Bool :=
  m.any (fun e => e.1 == k)

/-- Replace the value of the first entry with key `k` (on unique-key lists,
the only such entry — JS objects cannot hold two entries for one key). -/
def setFirst (k : String) (v : List String) : MembershipIndex → MembershipIndex
  | [] => []
  | e :: t => if e.1 == k then (k, v) :: t else e :: setFirst k v t

/-- Model of the spread update `{ ...prev, [k]: v }`: replace the entry for `k` in place if present,
otherwise add it. -/
def jsSet (m : MembershipIndex) (k : String) (v : List String) : MembershipIndex :=
  if jsHasKey m k then setFirst k v m else m ++ [(k, v)]

/-- Model of `delete newState[k]`: drop the entry for `k`. -/
def jsDelete (m : MembershipIndex) (k : String) : MembershipIndex :=
  m.filter (fun e => e.1 != k)

/-- Membership test `userSegmentsIds.includes(segmentId)`. -/
def memberOf (m : MembershipIndex) (userId segmentId : String) : Bool :=
  (jsGet m userId).contains segmentId

/-- JavaScript `String.prototype.trim`: strip leading and trailing
whitespace.  Lean's own `String.trim` is extensionally the same on the
inputs of interest, but its position arithmetic does not reduce in the
kernel, so the embedding uses this list-based equivalent. -/
def jsTrim (s : String) : String :=
  ⟨((s.data.dropWhile Char.isWhitespace).reverse.dropWhile Char.isWhitespace).reverse⟩

/-- Model of `handleCreateSegment(name, description)` (App.jsx lines 49-71).
`freshId` stands for `generateId()` and `now` for `new Date().toISOString()`.
Note the duplicate-name guard compares the *untrimmed* input `name`
(`segments.some(s => s.name === name)`) while the stored name is trimmed. -/
def handleCreateSegment (segments : List Segment) (name description : String)
    (freshId now : String) : Except AppError (List Segment) :=
  if jsTrim name == "" then .error .validationError
  else if segments.any (fun s => s.name == name) then .error .duplicateNameError
  else .ok (segments ++ [{ id := freshId, name := jsTrim name,
                           description := jsTrim description, createdAt := now,
                           updatedAt := now }])

/-- Model of `handleUpdateSegment(id, newName, newDescription)` (App.jsx lines 74-96).
There is no existence check on `id`: when no segment has this id the `map`
changes nothing and the handler still succeeds. -/
def handleUpdateSegment (segments : List Segment) (id newName newDescription : String)
    (now : String) : Except AppError (List Segment) :=
  if jsTrim newName == "" then .error .validationError
  else if segments.any (fun s => s.name == newName && s.id != id) then
    .error .duplicateNameError
  else .ok (segments.map (fun s =>
    if s.id == id then
      { s with name := jsTrim newName, description := jsTrim newDescription,
               updatedAt := now }
    else s))

/-- Model of `handleDeleteSegment(id, name)` (App.jsx lines 99-119), confirmed path:
filter the segment out of the store and cascade over the membership index,
dropping the deleted id from every set and dropping any user whose set
becomes empty. -/
def handleDeleteSegment (segments : List Segment) (memberships : MembershipIndex)
    (id : String) : List Segment × MembershipIndex :=
  (segments.filter (fun s => s.id != id),
   (memberships.map (fun e => (e.1, e.2.filter (fun sid => sid != id)))).filter
     (fun e => !e.2.isEmpty))

/-- Model of `handleAddUserToSegment(userId, segmentId)` (App.jsx lines 124-141).
`!userId || !segmentId` on strings is the empty-string test.  There is no
check that `segmentId` refers to a live segment. -/
def handleAddUserToSegment (memberships : MembershipIndex) (userId segmentId : String) :
    Except AppError MembershipIndex :=
  if userId == "" || segmentId == "" then .error .validationError
  else
    let currentSegments := jsGet memberships userId
    if !(currentSegments.contains segmentId) then
      .ok (jsSet memberships userId (currentSegments ++ [segmentId]))
    else .ok memberships

/-- Model of `handleRemoveUserFromSegment(userId, segmentId)` (App.jsx lines 144-164). -/
def handleRemoveUserFromSegment (memberships : MembershipIndex) (userId segmentId : String) :
    Except AppError MembershipIndex :=
  if userId == "" || segmentId == "" then .error .validationError
  else
    let newSegments := (jsGet memberships userId).filter (fun id => id != segmentId)
    if newSegments.isEmpty then .ok (jsDelete memberships userId)
    else .ok (jsSet memberships userId newSegments)

/-- Candidate user ids of the assignment pass, from
`Array.from({ length: 1000 }, (_, i) => i + 1)`: the ids
1..1000 of `handleAssignRandomUsers`. -/
def allPossibleUserIds : List Nat := List.range' 1 1000

/-- One iteration of the `allPossibleUserIds.forEach` body of
`handleAssignRandomUsers` (App.jsx lines 184-202), threading the state object
and `assignedCount`.  The numeric `userId` indexes the object through its
decimal string.  In the `else` branch the code first stores the filtered
array and then deletes the key when that array is empty, which nets out to
`jsSet` of a non-empty filtered array or `jsDelete`. -/
def assignStep (segmentId : String) (percentage : Int) (acc : MembershipIndex × Nat)
    (userId : Nat) : MembershipIndex × Nat :=
  if ((userId % 100 : Nat) : Int) < percentage then
    if !((jsGet acc.1 (toString userId)).contains segmentId) then
      (jsSet acc.1 (toString userId) (jsGet acc.1 (toString userId) ++ [segmentId]),
       acc.2 + 1)
    else acc
  else
    if ((jsGet acc.1 (toString userId)).filter (fun id => id != segmentId)).isEmpty then
      (jsDelete acc.1 (toString userId), acc.2)
    else
      (jsSet acc.1 (toString userId)
        ((jsGet acc.1 (toString userId)).filter (fun id => id != segmentId)), acc.2)

/-- Model of `handleAssignRandomUsers(segmentId, percentage)` (App.jsx lines 167-208).
Returns the new membership index together with `assignedCount`. -/
def handleAssignRandomUsers (memberships : MembershipIndex) (segmentId : String)
    (percentage : Int) : Except AppError (MembershipIndex × Nat) :=
  if segmentId == "" then .error .validationError
  else if percentage < 0 || percentage > 100 then .error .validationError
  else .ok (allPossibleUserIds.foldl (assignStep segmentId percentage) (memberships, 0))

/-- Model of `handleLookup` in `UserSegmentLookup` (App.jsx lines 430-445): the
segments shown for a user — empty on empty input or when the user has no
memberships, otherwise the live segments whose id is in the user's set. -/
def handleLookup (segments : List Segment) (memberships : MembershipIndex)
    (lookupUserId : String) : List Segment :=
  if lookupUserId == "" then []
  else
    let userSegmentsIds := jsGet memberships lookupUserId
    if userSegmentsIds.isEmpty then []
    else segments.filter (fun s => userSegmentsIds.contains s.id)

/-- State after a membership handler call: the React state is replaced on
success (`setUserSegments`) and untouched on an error return. -/
def afterAdd (m : MembershipIndex) (userId segmentId : String) : MembershipIndex :=
  match handleAddUserToSegment m userId segmentId with
  | .ok m' => m'
  | .error _ => m

/-- State after `handleRemoveUserFromSegment`, error leaving it unchanged. -/
def afterRemove (m : MembershipIndex) (userId segmentId : String) : MembershipIndex :=
  match handleRemoveUserFromSegment m userId segmentId with
  | .ok m' => m'
  | .error _ => m

/-- Referential integrity of the membership index against the segment store:
every segment id in any user's set belongs to a live segment (spec §3). -/
def membershipsLive (segments : List Segment) (m : MembershipIndex) : Bool :=
  m.all (fun e => e.2.all (fun sid => segments.any (fun s => s.id == sid)))

/-- Decimal digit characters of `n`, most significant first. -/
def decChars (n : Nat) : List Char :=
  if _h : n < 10 then [Nat.digitChar n]
  else decChars (n / 10) ++ [Nat.digitChar (n % 10)]
decreasing_by exact Nat.div_lt_self (by omega) (by omega)

/-- Membership state after `handleAssignRandomUsers` (the React state is
untouched when the handler reports an error). -/
def afterAssign (m : MembershipIndex) (segmentId : String) (percentage : Int) :
    MembershipIndex :=
  match handleAssignRandomUsers m segmentId percentage with
  | .ok r => r.1
  | .error _ => m

/-- Per-candidate postcondition of the assignment pass: a candidate whose
bucket `userId % 100` falls below the percentage is a member afterwards; any
other candidate is a non-member and, when its set is empty, its key is gone. -/
def assignedOk (segmentId : String) (percentage : Int) (m : MembershipIndex)
    (u : Nat) : Prop :=
  if ((u % 100 : Nat) : Int) < percentage then
    memberOf m (toString u) segmentId = true
  else
    memberOf m (toString u) segmentId = false ∧
      (jsGet m (toString u) = [] → jsHasKey m (toString u) = false)

/-- Segment store after `handleCreateSegment` (unchanged on error). -/
def afterCreate (segments : List Segment) (name description freshId now : String) :
    List Segment :=
  match handleCreateSegment segments name description freshId now with
  | .ok s' => s'
  | .error _ => segments

/-- Segment store after `handleUpdateSegment` (unchanged on error). -/
def afterUpdate (segments : List Segment) (id newName newDescription now : String) :
    List Segment :=
  match handleUpdateSegment segments id newName newDescription now with
  | .ok s' => s'
  | .error _ => segments

/-! ## Sample data for counterexamples and witnesses -/

/-- A live segment named `A` with id `a`. -/
def segA : Segment :=
  { id := "a", name := "A", description := "", createdAt := "t0", updatedAt := "t0" }

/-- The segment that `handleCreateSegment [segA] " A" "" "b" "t1"` appends:
its stored (trimmed) name collides with `segA`. -/
def segA2 : Segment :=
  { id := "b", name := "A", description := "", createdAt := "t1", updatedAt := "t1" }

/-- A live segment named `B` with id `b`. -/
def segB : Segment :=
  { id := "b", name := "B", description := "", createdAt := "t0", updatedAt := "t0" }


example : jsGet [("1", ["a", "b"])] "1" = ["a", "b"] := by decide
example : jsGet [("1", ["a"])] "2" = [] := by decide
example : jsSet [("1", ["a"])] "1" ["b"] = [("1", ["b"])] := by decide
example : jsSet [("1", ["a"])] "2" ["b"] = [("1", ["a"]), ("2", ["b"])] := by decide
example : afterAdd [] "1" "x" = [("1", ["x"])] := by decide
example : afterRemove [("1", ["x"])] "1" "x" = [] := by decide
example : handleAddUserToSegment [] "" "x" = .error .validationError := by decide

/-! ## Basic facts about the JS-object operations -/

theorem jsHasKey_eq_isSome (m : MembershipIndex) (k : String) :
    jsHasKey m k = (m.find? (fun e => e.1 == k)).isSome := by
  induction m with
  | nil => rfl
  | cons e t ih =>
    simp only [jsHasKey, List.any_cons, List.find?_cons] at *
    cases h : (e.1 == k) <;> simp [h, ih]

theorem find?_eq_none_of_not_hasKey {m : MembershipIndex} {k : String}
    (h : jsHasKey m k = false) : m.find? (fun e => e.1 == k) = none := by
  cases hf : m.find? (fun e => e.1 == k) with
  | none => rfl
  | some e => rw [jsHasKey_eq_isSome, hf] at h; simp at h

theorem jsGet_eq_of_find?_eq {m m' : MembershipIndex} {k : String}
    (h : m.find? (fun e => e.1 == k) = m'.find? (fun e => e.1 == k)) :
    jsGet m k = jsGet m' k := by
  simp [jsGet, h]

theorem jsHasKey_eq_of_find?_eq {m m' : MembershipIndex} {k : String}
    (h : m.find? (fun e => e.1 == k) = m'.find? (fun e => e.1 == k)) :
    jsHasKey m k = jsHasKey m' k := by
  simp [jsHasKey_eq_isSome, h]

theorem find?_setFirst_ne (m : MembershipIndex) (k w : String) (v : List String)
    (hk : k ≠ w) : (setFirst w v m).find? (fun e => e.1 == k) =
      m.find? (fun e => e.1 == k) := by
  induction m with
  | nil => rfl
  | cons e t ih =>
    by_cases he : e.1 = w
    · have h1 : (e.1 == w) = true := by simp [he]
      have h2 : (e.1 == k) = false := by simp [he]; exact fun h => hk h.symm
      have h3 : (w == k) = false := by simp; exact fun h => hk h.symm
      simp [setFirst, h1, List.find?_cons, h2, h3]
    · have h1 : (e.1 == w) = false := by simp [he]
      simp only [setFirst, h1, Bool.false_eq_true, if_false, List.find?_cons]
      cases hek : (e.1 == k) <;> simp [ih]

theorem find?_jsSet_ne (m : MembershipIndex) (k w : String) (v : List String)
    (hk : k ≠ w) : (jsSet m w v).find? (fun e => e.1 == k) =
      m.find? (fun e => e.1 == k) := by
  unfold jsSet
  by_cases h : jsHasKey m w
  · simp only [h, if_true]
    exact find?_setFirst_ne m k w v hk
  · have h2 : (((w, v) : String × List String).1 == k) = false := by
      simp; exact fun hx => hk hx.symm
    simp [h, List.find?_append, List.find?_cons, h2]

theorem find?_jsDelete_ne (m : MembershipIndex) (k w : String) (hk : k ≠ w) :
    (jsDelete m w).find? (fun e => e.1 == k) = m.find? (fun e => e.1 == k) := by
  induction m with
  | nil => rfl
  | cons e t ih =>
    by_cases he : e.1 = w
    · have h1 : (e.1 != w) = false := by simp [he]
      have h2 : (e.1 == k) = false := by simp [he]; exact fun h => hk h.symm
      simp only [jsDelete, List.filter_cons, h1, Bool.false_eq_true, if_false,
        List.find?_cons, h2]
      simpa [jsDelete] using ih
    · have h1 : (e.1 != w) = true := by simp [he]
      simp only [jsDelete, List.filter_cons, h1, if_true, List.find?_cons]
      cases hek : (e.1 == k)
      · simpa [jsDelete, hek] using ih
      · simp [hek]

theorem jsGet_setFirst_self (m : MembershipIndex) (k : String) (v : List String)
    (h : jsHasKey m k = true) : jsGet (setFirst k v m) k = v := by
  induction m with
  | nil => simp [jsHasKey] at h
  | cons e t ih =>
    by_cases he : e.1 = k
    · have h1 : (e.1 == k) = true := by simp [he]
      simp [setFirst, h1, jsGet, List.find?_cons]
    · have h1 : (e.1 == k) = false := by simp [he]
      have ht : jsHasKey t k = true := by simpa [jsHasKey, h1] using h
      simp only [setFirst, h1, Bool.false_eq_true, if_false]
      simpa [jsGet, List.find?_cons, h1] using ih ht

theorem jsGet_jsSet_self (m : MembershipIndex) (k : String) (v : List String) :
    jsGet (jsSet m k v) k = v := by
  unfold jsSet
  by_cases h : jsHasKey m k
  · simp only [h, if_true]; exact jsGet_setFirst_self m k v h
  · have hnone := find?_eq_none_of_not_hasKey (m := m) (k := k) (by simpa using h)
    simp [h, jsGet, List.find?_append, hnone, List.find?_cons]

theorem find?_jsDelete_self (m : MembershipIndex) (k : String) :
    (jsDelete m k).find? (fun e => e.1 == k) = none := by
  induction m with
  | nil => rfl
  | cons e t ih =>
    by_cases he : e.1 = k
    · have h1 : (e.1 != k) = false := by simp [he]
      simpa [jsDelete, List.filter_cons, h1] using ih
    · have h1 : (e.1 != k) = true := by simp [he]
      have h2 : (e.1 == k) = false := by simp [he]
      simp only [jsDelete, List.filter_cons, h1, if_true, List.find?_cons, h2]
      simpa [jsDelete] using ih

theorem jsGet_jsDelete_self (m : MembershipIndex) (k : String) :
    jsGet (jsDelete m k) k = [] := by
  simp [jsGet, find?_jsDelete_self]

theorem jsHasKey_jsDelete_self (m : MembershipIndex) (k : String) :
    jsHasKey (jsDelete m k) k = false := by
  simp [jsHasKey_eq_isSome, find?_jsDelete_self]

theorem jsDelete_of_not_hasKey (m : MembershipIndex) (k : String)
    (h : jsHasKey m k = false) : jsDelete m k = m := by
  apply List.filter_eq_self.mpr
  intro e he
  simp only [jsHasKey, List.any_eq_false] at h
  have h2 := h e he
  simp only [bne_iff_ne, ne_eq]
  intro hx
  exact h2 (by simp [hx])

theorem jsSet_self_of_get {v : List String} (m : MembershipIndex) (k : String)
    (hk : jsHasKey m k = true) (hget : jsGet m k = v) : jsSet m k v = m := by
  unfold jsSet
  simp only [hk, if_true]
  subst hget
  clear hk
  induction m with
  | nil => rfl
  | cons e t ih =>
    by_cases he : e.1 = k
    · have h1 : (e.1 == k) = true := by simp [he]
      simp [setFirst, h1, jsGet, List.find?_cons, ← he]
    · have h1 : (e.1 == k) = false := by simp [he]
      simp only [setFirst, h1, Bool.false_eq_true, if_false, List.cons.injEq, true_and]
      simpa [jsGet, List.find?_cons, h1] using ih

theorem jsGet_eq_nil_of_not_hasKey (m : MembershipIndex) (k : String)
    (h : jsHasKey m k = false) : jsGet m k = [] := by
  simp [jsGet, find?_eq_none_of_not_hasKey h]

theorem hasKey_of_jsGet_ne_nil {m : MembershipIndex} {k : String}
    (h : jsGet m k ≠ []) : jsHasKey m k = true := by
  cases hk : jsHasKey m k
  · exact absurd (jsGet_eq_nil_of_not_hasKey m k hk) h
  · rfl

/-! ## Injectivity of decimal string coercion

JavaScript coerces the numeric candidate ids to object keys through their
decimal representation, which the embedding writes as `toString (u : Nat)`,
i.e. `Nat.repr u`.  Distinct candidates touch distinct keys because that
representation is injective; this is proved here from first principles via a
fuel-free recursion `decChars` equal to core's fuelled `Nat.toDigitsCore`. -/


theorem decChars_eq (n : Nat) : decChars n =
    if n < 10 then [Nat.digitChar n]
    else decChars (n / 10) ++ [Nat.digitChar (n % 10)] := by
  rw [decChars]
  split <;> simp_all

theorem decChars_ne_nil (n : Nat) : decChars n ≠ [] := by
  rw [decChars_eq]
  split <;> simp

theorem toDigitsCore_eq_decChars :
    ∀ (fuel n : Nat) (ds : List Char), n ≤ fuel →
      Nat.toDigitsCore 10 (fuel + 1) n ds = decChars n ++ ds := by
  intro fuel
  induction fuel with
  | zero =>
    intro n ds hn
    have h0 : n = 0 := Nat.le_zero.mp hn
    subst h0
    rw [decChars_eq]
    simp [Nat.toDigitsCore]
  | succ f ih =>
    intro n ds hn
    rw [decChars_eq]
    by_cases h : n < 10
    · have hdiv : n / 10 = 0 := Nat.div_eq_of_lt h
      have hmod : n % 10 = n := Nat.mod_eq_of_lt h
      simp [Nat.toDigitsCore, hdiv, hmod, h]
    · have hdiv : n / 10 ≠ 0 := by omega
      have hle : n / 10 ≤ f := by omega
      have step : Nat.toDigitsCore 10 (f + 1 + 1) n ds
          = Nat.toDigitsCore 10 (f + 1) (n / 10) (Nat.digitChar (n % 10) :: ds) := by
        show (if n / 10 = 0 then Nat.digitChar (n % 10) :: ds
              else Nat.toDigitsCore 10 (f + 1) (n / 10) (Nat.digitChar (n % 10) :: ds)) = _
        rw [if_neg hdiv]
      rw [step, ih (n / 10) (Nat.digitChar (n % 10) :: ds) hle]
      simp [h]

theorem natRepr_eq_decChars (n : Nat) : Nat.repr n = (decChars n).asString := by
  show (Nat.toDigits 10 n).asString = (decChars n).asString
  unfold Nat.toDigits
  rw [toDigitsCore_eq_decChars n n [] le_rfl]
  simp

theorem digitChar_injOn :
    ∀ a ∈ List.range 10, ∀ b ∈ List.range 10,
      Nat.digitChar a = Nat.digitChar b → a = b := by decide

theorem decChars_inj : ∀ m n : Nat, decChars m = decChars n → m = n := by
  intro m
  induction m using Nat.strong_induction_on with
  | _ m ih =>
    intro n h
    rw [decChars_eq m, decChars_eq n] at h
    by_cases hm : m < 10 <;> by_cases hn : n < 10
    · rw [if_pos hm, if_pos hn] at h
      simp only [List.cons.injEq, and_true] at h
      exact digitChar_injOn m (List.mem_range.mpr hm) n (List.mem_range.mpr hn) h
    · exfalso
      rw [if_pos hm, if_neg hn] at h
      have hlen := congrArg List.length h
      simp only [List.length_cons, List.length_nil, List.length_append] at hlen
      have h0 : (decChars (n / 10)).length = 0 := by omega
      exact decChars_ne_nil (n / 10) (List.length_eq_zero.mp h0)
    · exfalso
      rw [if_neg hm, if_pos hn] at h
      have hlen := congrArg List.length h
      simp only [List.length_cons, List.length_nil, List.length_append] at hlen
      have h0 : (decChars (m / 10)).length = 0 := by omega
      exact decChars_ne_nil (m / 10) (List.length_eq_zero.mp h0)
    · rw [if_neg hm, if_neg hn] at h
      obtain ⟨h1, h2⟩ := List.append_inj' h (by simp)
      have hdiv : m / 10 = n / 10 :=
        ih (m / 10) (Nat.div_lt_self (by omega) (by omega)) (n / 10) h1
      simp only [List.cons.injEq, and_true] at h2
      have hmod : m % 10 = n % 10 :=
        digitChar_injOn (m % 10) (List.mem_range.mpr (Nat.mod_lt _ (by omega)))
          (n % 10) (List.mem_range.mpr (Nat.mod_lt _ (by omega))) h2
      omega

theorem natToString_inj {m n : Nat} (h : toString m = toString n) : m = n := by
  have hm : toString m = (decChars m).asString := natRepr_eq_decChars m
  have hn : toString n = (decChars n).asString := natRepr_eq_decChars n
  rw [hm, hn] at h
  apply decChars_inj
  have hdata : (decChars m).asString.data = (decChars n).asString.data := by rw [h]
  simpa [List.asString] using hdata

theorem key_ne_of_ne {u v : Nat} (h : u ≠ v) : toString u ≠ toString v :=
  fun hx => h (natToString_inj hx)

theorem allPossibleUserIds_nodup : allPossibleUserIds.Nodup :=
  List.nodup_range' 1 1000

/-! ## The random-assignment fold -/



theorem find?_assignStep_ne (sid : String) (p : Int) (acc : MembershipIndex × Nat)
    (u : Nat) (k : String) (hk : k ≠ toString u) :
    ((assignStep sid p acc u).1.find? (fun e => e.1 == k)) =
      acc.1.find? (fun e => e.1 == k) := by
  unfold assignStep
  split
  · split
    · exact find?_jsSet_ne acc.1 k (toString u) _ hk
    · rfl
  · split
    · exact find?_jsDelete_ne acc.1 k (toString u) hk
    · exact find?_jsSet_ne acc.1 k (toString u) _ hk

theorem find?_foldl_assign (sid : String) (p : Int) (l : List Nat) :
    ∀ (acc : MembershipIndex × Nat) (k : String), (∀ u ∈ l, toString u ≠ k) →
      ((l.foldl (assignStep sid p) acc).1.find? (fun e => e.1 == k)) =
        acc.1.find? (fun e => e.1 == k) := by
  induction l with
  | nil => intro acc k _; rfl
  | cons x t ih =>
    intro acc k hk
    rw [List.foldl_cons]
    rw [ih (assignStep sid p acc x) k (fun u hu => hk u (List.mem_cons_of_mem x hu))]
    exact find?_assignStep_ne sid p acc x k fun h => hk x (List.mem_cons_self x t) h.symm

theorem memberOf_eq_of_find?_eq {m m' : MembershipIndex} {k s : String}
    (h : m.find? (fun e => e.1 == k) = m'.find? (fun e => e.1 == k)) :
    memberOf m k s = memberOf m' k s := by
  simp [memberOf, jsGet_eq_of_find?_eq h]

theorem assignedOk_of_find?_eq {sid : String} {p : Int} {m m' : MembershipIndex} {u : Nat}
    (hf : m'.find? (fun e => e.1 == toString u) = m.find? (fun e => e.1 == toString u))
    (h : assignedOk sid p m u) : assignedOk sid p m' u := by
  unfold assignedOk at *
  by_cases hcase : ((u % 100 : Nat) : Int) < p
  · rw [if_pos hcase] at h ⊢
    rw [memberOf_eq_of_find?_eq hf]
    exact h
  · rw [if_neg hcase] at h ⊢
    refine ⟨by rw [memberOf_eq_of_find?_eq hf]; exact h.1, ?_⟩
    rw [jsGet_eq_of_find?_eq hf, jsHasKey_eq_of_find?_eq hf]
    exact h.2

theorem bool_eq_false {b : Bool} (h : ¬b = true) : b = false := by
  cases b
  · rfl
  · exact absurd rfl h

theorem contains_eq_decide_mem (l : List String) (s : String) :
    l.contains s = decide (s ∈ l) := List.elem_eq_mem s l

theorem contains_filter_ne_self (l : List String) (s : String) :
    (l.filter (fun id => id != s)).contains s = false := by
  rw [contains_eq_decide_mem]
  apply decide_eq_false
  intro hmem
  have hcond := (List.mem_filter.mp hmem).2
  simp at hcond

theorem filter_ne_of_not_contains {l : List String} {s : String}
    (h : l.contains s = false) : l.filter (fun id => id != s) = l := by
  rw [contains_eq_decide_mem] at h
  have hs : s ∉ l := of_decide_eq_false h
  apply List.filter_eq_self.mpr
  intro a ha
  simp only [bne_iff_ne, ne_eq]
  intro hx
  exact hs (hx ▸ ha)

theorem contains_append_self (l : List String) (s : String) :
    (l ++ [s]).contains s = true := by
  rw [contains_eq_decide_mem]
  simp

theorem assignStep_post (sid : String) (p : Int) (acc : MembershipIndex × Nat) (u : Nat) :
    assignedOk sid p (assignStep sid p acc u).1 u := by
  unfold assignStep assignedOk
  by_cases hcase : ((u % 100 : Nat) : Int) < p
  · rw [if_pos hcase, if_pos hcase]
    by_cases hmem : (jsGet acc.1 (toString u)).contains sid = true
    · rw [hmem]
      simp only [Bool.not_true, Bool.false_eq_true, if_false]
      exact hmem
    · rw [bool_eq_false hmem]
      simp only [Bool.not_false, if_true]
      unfold memberOf
      rw [jsGet_jsSet_self]
      exact contains_append_self _ _
  · rw [if_neg hcase, if_neg hcase]
    by_cases hemp : ((jsGet acc.1 (toString u)).filter (fun id => id != sid)).isEmpty = true
    · rw [if_pos hemp]
      dsimp only
      constructor
      · unfold memberOf
        rw [jsGet_jsDelete_self]
        rfl
      · intro _
        exact jsHasKey_jsDelete_self _ _
    · rw [if_neg hemp]
      dsimp only
      constructor
      · unfold memberOf
        rw [jsGet_jsSet_self]
        exact contains_filter_ne_self _ _
      · intro hnil
        rw [jsGet_jsSet_self] at hnil
        exact absurd (by rw [hnil]; rfl) hemp

theorem assignedOk_foldl (sid : String) (p : Int) :
    ∀ (l : List Nat), l.Nodup → ∀ (acc : MembershipIndex × Nat), ∀ u ∈ l,
      assignedOk sid p ((l.foldl (assignStep sid p) acc).1) u := by
  intro l
  induction l with
  | nil => intro _ acc u hu; cases hu
  | cons x t ih =>
    intro hnd acc u hu
    rw [List.foldl_cons]
    rcases List.mem_cons.mp hu with rfl | hut
    · have hx : u ∉ t := (List.nodup_cons.mp hnd).1
      have hfr : ∀ v ∈ t, toString v ≠ toString u := fun v hv =>
        key_ne_of_ne (fun h => hx (h ▸ hv))
      refine assignedOk_of_find?_eq ?_ (assignStep_post sid p acc u)
      exact find?_foldl_assign sid p t (assignStep sid p acc u) (toString u) hfr
    · exact ih (List.nodup_cons.mp hnd).2 (assignStep sid p acc x) u hut

theorem assignStep_count (sid : String) (p : Int) (m : MembershipIndex) (c : Nat) (u : Nat) :
    (assignStep sid p (m, c) u).2 =
      c + (if (decide (((u % 100 : Nat) : Int) < p) &&
               !(memberOf m (toString u) sid)) = true then 1 else 0) := by
  unfold assignStep memberOf
  by_cases hcase : ((u % 100 : Nat) : Int) < p
  · rw [if_pos hcase, decide_eq_true hcase, Bool.true_and]
    by_cases hmem : (jsGet m (toString u)).contains sid = true
    · rw [hmem]
      simp only [Bool.not_true, Bool.false_eq_true, if_false, Nat.add_zero]
    · rw [bool_eq_false hmem]
      simp only [Bool.not_false, if_true]
  · rw [if_neg hcase, decide_eq_false hcase, Bool.false_and]
    simp only [Bool.false_eq_true, if_false, Nat.add_zero]
    split <;> rfl

theorem assignStep_memberOf_ne (sid : String) (p : Int) (acc : MembershipIndex × Nat)
    (u : Nat) (k s : String) (hk : k ≠ toString u) :
    memberOf (assignStep sid p acc u).1 k s = memberOf acc.1 k s :=
  memberOf_eq_of_find?_eq (find?_assignStep_ne sid p acc u k hk)

theorem foldl_assign_count (sid : String) (p : Int) :
    ∀ (l : List Nat), l.Nodup → ∀ (m : MembershipIndex) (c : Nat),
      (l.foldl (assignStep sid p) (m, c)).2 =
        c + (l.filter (fun u => decide (((u % 100 : Nat) : Int) < p) &&
          !(memberOf m (toString u) sid))).length := by
  intro l
  induction l with
  | nil => intro _ m c; simp
  | cons x t ih =>
    intro hnd m c
    rw [List.foldl_cons]
    have hsplit : assignStep sid p (m, c) x =
        ((assignStep sid p (m, c) x).1, (assignStep sid p (m, c) x).2) := rfl
    rw [hsplit, ih (List.nodup_cons.mp hnd).2 (assignStep sid p (m, c) x).1
      (assignStep sid p (m, c) x).2]
    have hx : x ∉ t := (List.nodup_cons.mp hnd).1
    have hcongr : (t.filter (fun u => decide (((u % 100 : Nat) : Int) < p) &&
        !(memberOf (assignStep sid p (m, c) x).1 (toString u) sid))) =
        (t.filter (fun u => decide (((u % 100 : Nat) : Int) < p) &&
        !(memberOf m (toString u) sid))) := by
      apply List.filter_congr
      intro v hv
      rw [assignStep_memberOf_ne sid p (m, c) x (toString v) sid
        (key_ne_of_ne (fun h => hx (h ▸ hv)))]
    rw [hcongr, assignStep_count]
    by_cases hpred : (decide (((x % 100 : Nat) : Int) < p) &&
        !(memberOf m (toString x) sid)) = true
    · simp only [List.filter_cons, hpred, if_true, List.length_cons]
      omega
    · simp only [List.filter_cons, bool_eq_false hpred, Bool.false_eq_true, if_false,
        Nat.add_zero]

theorem foldl_assign_id (sid : String) (p : Int) :
    ∀ (l : List Nat) (m : MembershipIndex) (c : Nat),
      (∀ u ∈ l, assignedOk sid p m u) →
      l.foldl (assignStep sid p) (m, c) = (m, c) := by
  intro l
  induction l with
  | nil => intro m c _; rfl
  | cons x t ih =>
    intro m c hpost
    rw [List.foldl_cons]
    have hstep : assignStep sid p (m, c) x = (m, c) := by
      have hx := hpost x (List.mem_cons_self x t)
      unfold assignedOk at hx
      unfold assignStep
      by_cases hcase : ((x % 100 : Nat) : Int) < p
      · rw [if_pos hcase] at hx
        rw [if_pos hcase]
        unfold memberOf at hx
        rw [hx]
        simp only [Bool.not_true, Bool.false_eq_true, if_false]
      · rw [if_neg hcase] at hx
        rw [if_neg hcase]
        obtain ⟨hmem, hkey⟩ := hx
        unfold memberOf at hmem
        rw [filter_ne_of_not_contains hmem]
        by_cases hnil : jsGet m (toString x) = []
        · rw [if_pos (by rw [hnil]; rfl)]
          rw [jsDelete_of_not_hasKey m (toString x) (hkey hnil)]
        · rw [if_neg (fun hx2 => hnil (List.isEmpty_iff.mp hx2))]
          rw [jsSet_self_of_get m (toString x) (hasKey_of_jsGet_ne_nil hnil) rfl]
    rw [hstep]
    exact ih m c (fun u hu => hpost u (List.mem_cons_of_mem x hu))


/-! ## Claim C1 -/

/-- C1 counterexample: with an empty Segment Store (so segment id `x` is not
live), `addUserToSegment("1", "x")` does not fail with `NotFoundError`; it
succeeds and changes the membership index. -/
theorem addUser_dead_segment_succeeds_cex :
    (([] : List Segment).any (fun s => s.id == "x") = false) ∧
    handleAddUserToSegment [] "1" "x" = .ok [("1", ["x"])] ∧
    ([("1", ["x"])] : MembershipIndex) ≠ ([] : MembershipIndex) := by
  refine ⟨rfl, rfl, by decide⟩

/-- C1 amended: `handleAddUserToSegment` performs no liveness check at all.
For every non-empty `userId` and `segmentId` — here even under the claim's
premise that no live segment has id `segmentId` — the call succeeds and the
user becomes a member of the dead segment id; `NotFoundError` is never
returned. -/
theorem addUser_dead_segment_succeeds (segments : List Segment) (m : MembershipIndex)
    (userId segmentId : String) (hu : userId ≠ "") (hs : segmentId ≠ "")
    (hdead : ∀ seg ∈ segments, seg.id ≠ segmentId) :
    ∃ m', handleAddUserToSegment m userId segmentId = .ok m' ∧
      memberOf m' userId segmentId = true := by
  unfold handleAddUserToSegment
  have hguard : (userId == "" || segmentId == "") = false := by
    simp [hu, hs]
  rw [hguard]
  simp only [Bool.false_eq_true, if_false]
  by_cases hmem : (jsGet m userId).contains segmentId = true
  · refine ⟨m, ?_, hmem⟩
    rw [hmem]
    simp only [Bool.not_true, Bool.false_eq_true, if_false]
  · refine ⟨jsSet m userId (jsGet m userId ++ [segmentId]), ?_, ?_⟩
    · rw [bool_eq_false hmem]
      simp only [Bool.not_false, if_true]
    · unfold memberOf
      rw [jsGet_jsSet_self]
      exact contains_append_self _ _

/-- Witness for C1's amended theorem at a concrete input. -/
theorem addUser_dead_segment_succeeds_witness :
    ("1" : String) ≠ "" ∧ ("x" : String) ≠ "" ∧
    (∀ seg ∈ ([] : List Segment), seg.id ≠ "x") ∧
    (∃ m', handleAddUserToSegment [] "1" "x" = .ok m' ∧
      memberOf m' "1" "x" = true) :=
  ⟨by decide, by decide, by simp,
   addUser_dead_segment_succeeds [] [] "1" "x" (by decide) (by decide) (by simp)⟩

/-! ## Claim C3 -/

/-- C3 failing input: the store holds a segment named `"A"`, and
`createSegment(" A", "")` is called.  The claim (and the spec's uniqueness
invariant) demand `DuplicateNameError`, but the code's guard compares the
*untrimmed* input against stored names and lets the call through, storing a
second live segment whose (trimmed) name is again `"A"`. -/
theorem createSegment_trim_bypasses_duplicate_check :
    handleCreateSegment [segA] " A" "" "b" "t1" = .ok [segA, segA2] ∧
    segA.name = segA2.name := by
  constructor
  · rfl
  · rfl

/-! ## Claim C9 -/

/-- C9 counterexample: updating a nonexistent id `x` with a valid, fresh
name does not fail with `NotFoundError` (the handler has no existence check);
it succeeds, leaving the store unchanged. -/
theorem updateSegment_missing_id_cex :
    handleUpdateSegment [segA] "x" "B" "d" "t1" = .ok [segA] ∧
    handleUpdateSegment [segA] "x" "B" "d" "t1" ≠ .error .notFoundError := by
  refine ⟨rfl, by decide⟩

/-- C9 amended: for an id absent from the store and a non-empty,
non-duplicate `newName`, `handleUpdateSegment` leaves the store unchanged but
*succeeds* instead of failing with `NotFoundError`. -/
theorem updateSegment_missing_id_no_error (segments : List Segment)
    (id newName newDescription now : String)
    (hmiss : ∀ s ∈ segments, s.id ≠ id)
    (hname : jsTrim newName ≠ "")
    (hdup : ∀ s ∈ segments, s.name ≠ newName) :
    handleUpdateSegment segments id newName newDescription now = .ok segments := by
  unfold handleUpdateSegment
  rw [if_neg (by simpa using hname)]
  have hany : (segments.any fun s => s.name == newName && s.id != id) = false := by
    rw [List.any_eq_false]
    intro s hsmem
    simp [hdup s hsmem]
  rw [hany]
  simp only [Bool.false_eq_true, if_false, Except.ok.injEq]
  have hmap : (segments.map fun s =>
      if s.id == id then
        { s with name := jsTrim newName, description := jsTrim newDescription,
                 updatedAt := now }
      else s) = segments := by
    conv_rhs => rw [show segments = segments.map (fun s => s) from by simp]
    apply List.map_congr_left
    intro s hsmem
    rw [if_neg (by simp [hmiss s hsmem])]
  rw [hmap]

/-- Witness for C9's amended theorem at a concrete input. -/
theorem updateSegment_missing_id_no_error_witness :
    (∀ s ∈ [segA], s.id ≠ "x") ∧ jsTrim "B" ≠ "" ∧
    (∀ s ∈ [segA], s.name ≠ "B") ∧
    handleUpdateSegment [segA] "x" "B" "d" "t1" = .ok [segA] :=
  ⟨by decide, by decide, by decide,
   updateSegment_missing_id_no_error [segA] "x" "B" "d" "t1"
     (by decide) (by decide) (by decide)⟩

/-! ## Characterizations of the add/remove handlers -/

theorem afterAdd_invalid (m : MembershipIndex) (u s : String)
    (h : (u == "" || s == "") = true) : afterAdd m u s = m := by
  unfold afterAdd handleAddUserToSegment
  rw [if_pos h]

theorem afterRemove_invalid (m : MembershipIndex) (u s : String)
    (h : (u == "" || s == "") = true) : afterRemove m u s = m := by
  unfold afterRemove handleRemoveUserFromSegment
  rw [if_pos h]

theorem afterAdd_valid_mem (m : MembershipIndex) (u s : String)
    (h : (u == "" || s == "") = false) (hmem : (jsGet m u).contains s = true) :
    afterAdd m u s = m := by
  unfold afterAdd handleAddUserToSegment
  rw [h]
  simp only [Bool.false_eq_true, if_false, hmem, Bool.not_true]

theorem afterAdd_valid_notmem (m : MembershipIndex) (u s : String)
    (h : (u == "" || s == "") = false) (hmem : (jsGet m u).contains s = false) :
    afterAdd m u s = jsSet m u (jsGet m u ++ [s]) := by
  unfold afterAdd handleAddUserToSegment
  rw [h]
  simp only [Bool.false_eq_true, if_false, hmem, Bool.not_false, if_true]

theorem afterRemove_valid_nil (m : MembershipIndex) (u s : String)
    (h : (u == "" || s == "") = false)
    (hnil : (jsGet m u).filter (fun id => id != s) = []) :
    afterRemove m u s = jsDelete m u := by
  unfold afterRemove handleRemoveUserFromSegment
  rw [h]
  simp only [Bool.false_eq_true, if_false, hnil, List.isEmpty_nil, if_true]

theorem afterRemove_valid_cons (m : MembershipIndex) (u s : String)
    (h : (u == "" || s == "") = false)
    (hne : (jsGet m u).filter (fun id => id != s) ≠ []) :
    afterRemove m u s = jsSet m u ((jsGet m u).filter (fun id => id != s)) := by
  unfold afterRemove handleRemoveUserFromSegment
  rw [h]
  simp only [Bool.false_eq_true, if_false]
  rw [if_neg (fun hx => hne (List.isEmpty_iff.mp hx))]

theorem jsSet_of_hasKey (m : MembershipIndex) (k : String) (v : List String)
    (h : jsHasKey m k = true) : jsSet m k v = setFirst k v m := by
  unfold jsSet
  rw [h]
  simp only [if_true]

theorem filter_ne_idem (l : List String) (s : String) :
    (l.filter (fun id => id != s)).filter (fun id => id != s) =
      l.filter (fun id => id != s) := by
  apply List.filter_eq_self.mpr
  intro a ha
  exact (List.mem_filter.mp ha).2

theorem setFirst_setFirst (m : MembershipIndex) (k : String) (v w : List String) :
    setFirst k v (setFirst k w m) = setFirst k v m := by
  induction m with
  | nil => rfl
  | cons e t ih =>
    by_cases he : e.1 = k
    · have hb : (e.1 == k) = true := by simp [he]
      simp [setFirst, hb]
    · have hb : (e.1 == k) = false := by simp [he]
      simp [setFirst, hb, ih]

theorem jsDelete_append (a b : MembershipIndex) (k : String) :
    jsDelete (a ++ b) k = jsDelete a k ++ jsDelete b k := by
  unfold jsDelete
  rw [List.filter_append]

theorem jsDelete_single_self (k : String) (v : List String) :
    jsDelete [(k, v)] k = [] := by
  simp [jsDelete]

/-! ## Claim C8 -/

/-- C8: both membership mutations are idempotent — running
`addUserToSegment(u, s)` twice leaves the same state as running it once, and
likewise for `removeUserFromSegment(u, s)`; this holds for every starting
index, including the error paths (which leave the state untouched). -/
theorem addRemove_idempotent (m : MembershipIndex) (u s : String) :
    afterAdd (afterAdd m u s) u s = afterAdd m u s ∧
    afterRemove (afterRemove m u s) u s = afterRemove m u s := by
  by_cases hg : (u == "" || s == "") = true
  · refine ⟨?_, ?_⟩ <;>
      simp only [afterAdd_invalid m u s hg, afterRemove_invalid m u s hg]
  · have hg' : (u == "" || s == "") = false := bool_eq_false hg
    constructor
    · by_cases hmem : (jsGet m u).contains s = true
      · simp only [afterAdd_valid_mem m u s hg' hmem]
      · rw [afterAdd_valid_notmem m u s hg' (bool_eq_false hmem)]
        apply afterAdd_valid_mem _ u s hg'
        rw [jsGet_jsSet_self]
        exact contains_append_self _ _
    · by_cases hnil : (jsGet m u).filter (fun id => id != s) = []
      · rw [afterRemove_valid_nil m u s hg' hnil]
        rw [afterRemove_valid_nil (jsDelete m u) u s hg'
          (by rw [jsGet_jsDelete_self]; rfl)]
        exact jsDelete_of_not_hasKey _ _ (jsHasKey_jsDelete_self m u)
      · rw [afterRemove_valid_cons m u s hg' hnil]
        have hget : jsGet (jsSet m u ((jsGet m u).filter (fun id => id != s))) u =
            (jsGet m u).filter (fun id => id != s) := jsGet_jsSet_self m u _
        rw [afterRemove_valid_cons _ u s hg' (by rw [hget, filter_ne_idem]; exact hnil)]
        rw [hget, filter_ne_idem]
        exact jsSet_self_of_get _ u (hasKey_of_jsGet_ne_nil (by rw [hget]; exact hnil)) hget

/-! ## Claim C6 -/

/-- C6: after `deleteSegment(id)` no membership entry contains `id`, no user
key remains with an empty set, and the user-segment lookup never returns a
segment with that id, for any user. -/
theorem deleteSegment_cascades (segments : List Segment) (m : MembershipIndex)
    (id : String) :
    (∀ e ∈ (handleDeleteSegment segments m id).2,
        e.2.contains id = false ∧ e.2 ≠ []) ∧
    (∀ u : String, ∀ s ∈ handleLookup (handleDeleteSegment segments m id).1
        (handleDeleteSegment segments m id).2 u, s.id ≠ id) := by
  constructor
  · intro e he
    unfold handleDeleteSegment at he
    dsimp only at he
    rw [List.mem_filter] at he
    obtain ⟨hmap, hne⟩ := he
    rw [List.mem_map] at hmap
    obtain ⟨e0, _, rfl⟩ := hmap
    refine ⟨contains_filter_ne_self _ _, ?_⟩
    intro hnil
    rw [hnil] at hne
    simp at hne
  · intro u s hs
    unfold handleLookup at hs
    by_cases hu : (u == "") = true
    · rw [if_pos hu] at hs; cases hs
    · rw [if_neg (by simp_all)] at hs
      dsimp only at hs
      by_cases hemp :
          (jsGet (handleDeleteSegment segments m id).2 u).isEmpty = true
      · rw [if_pos hemp] at hs; cases hs
      · rw [if_neg (by simp_all)] at hs
        have hmem := (List.mem_filter.mp hs).1
        unfold handleDeleteSegment at hmem
        dsimp only at hmem
        have hne := (List.mem_filter.mp hmem).2
        simpa using hne

/-- Witness for C6 at a concrete input: user `1` was a member of the deleted
segment `a` and of `b`; after the deletion the lookup returns only `segB`,
whose id is not `a`. -/
theorem deleteSegment_cascades_witness :
    segB ∈ handleLookup (handleDeleteSegment [segA, segB] [("1", ["a", "b"])] "a").1
      (handleDeleteSegment [segA, segB] [("1", ["a", "b"])] "a").2 "1" ∧
    segB.id ≠ "a" :=
  ⟨by decide,
   (deleteSegment_cascades [segA, segB] [("1", ["a", "b"])] "a").2 "1" segB (by decide)⟩

/-! ## Claim C7 -/

/-- C7 counterexample: when the user is *already* a member, the add is a
no-op but the remove still deletes the membership, so the add/remove pair
does not restore the starting state. -/
theorem addThenRemove_not_roundtrip_cex :
    afterRemove (afterAdd [("1", ["a"])] "1" "a") "1" "a" ≠ [("1", ["a"])] := by
  decide

/-- C7 amended: `addUserToSegment(u, s)` followed by
`removeUserFromSegment(u, s)` restores the membership index exactly,
*provided* the user was not already a member of `s` and the index is
well-formed in the sense of the spec's own invariant (a key present with an
empty set cannot occur); and afterwards the `u` key is absent when the user
had no other memberships. -/
theorem addThenRemove_roundtrip (m : MembershipIndex) (u s : String)
    (hmem : memberOf m u s = false)
    (hwf : jsGet m u = [] → jsHasKey m u = false) :
    afterRemove (afterAdd m u s) u s = m ∧
    (jsGet m u = [] → jsHasKey (afterRemove (afterAdd m u s) u s) u = false) := by
  have hmain : afterRemove (afterAdd m u s) u s = m := by
    by_cases hg : (u == "" || s == "") = true
    · rw [afterAdd_invalid m u s hg, afterRemove_invalid m u s hg]
    · have hg' : (u == "" || s == "") = false := bool_eq_false hg
      unfold memberOf at hmem
      rw [afterAdd_valid_notmem m u s hg' hmem]
      have hget1 : jsGet (jsSet m u (jsGet m u ++ [s])) u = jsGet m u ++ [s] :=
        jsGet_jsSet_self m u _
      have hfilt : (jsGet m u ++ [s]).filter (fun id => id != s) = jsGet m u := by
        rw [List.filter_append, filter_ne_of_not_contains hmem]
        simp
      by_cases hnil : jsGet m u = []
      · rw [afterRemove_valid_nil _ u s hg' (by rw [hget1, hfilt]; exact hnil)]
        have hnk : jsHasKey m u = false := hwf hnil
        have hset : jsSet m u (jsGet m u ++ [s]) = m ++ [(u, jsGet m u ++ [s])] := by
          unfold jsSet
          rw [hnk]
          simp only [Bool.false_eq_true, if_false]
        rw [hset, jsDelete_append, jsDelete_single_self, List.append_nil,
          jsDelete_of_not_hasKey m u hnk]
      · rw [afterRemove_valid_cons _ u s hg' (by rw [hget1, hfilt]; exact hnil)]
        rw [hget1, hfilt]
        have hk : jsHasKey m u = true := hasKey_of_jsGet_ne_nil hnil
        have hk1 : jsHasKey (jsSet m u (jsGet m u ++ [s])) u = true :=
          hasKey_of_jsGet_ne_nil (by rw [hget1]; simp)
        rw [jsSet_of_hasKey _ u _ hk1, jsSet_of_hasKey m u _ hk, setFirst_setFirst]
        have h3 := jsSet_self_of_get m u hk rfl
        rw [jsSet_of_hasKey m u _ hk] at h3
        exact h3
  refine ⟨hmain, ?_⟩
  intro hnil
  rw [hmain]
  exact hwf hnil

/-- Witness for C7's amended theorem at a concrete input: user `1` is not a
member of `a` and holds no key, so the round trip restores the index and the
key stays absent. -/
theorem addThenRemove_roundtrip_witness :
    memberOf [("2", ["b"])] "1" "a" = false ∧
    (jsGet [("2", ["b"])] "1" = [] → jsHasKey [("2", ["b"])] "1" = false) ∧
    (afterRemove (afterAdd [("2", ["b"])] "1" "a") "1" "a" = [("2", ["b"])] ∧
     (jsGet [("2", ["b"])] "1" = [] →
       jsHasKey (afterRemove (afterAdd [("2", ["b"])] "1" "a") "1" "a") "1" = false)) :=
  ⟨by decide, by decide,
   addThenRemove_roundtrip [("2", ["b"])] "1" "a" (by decide) (by decide)⟩

/-! ## Claim C2 -/


theorem membershipsLive_iff (segments : List Segment) (m : MembershipIndex) :
    membershipsLive segments m = true ↔
      ∀ e ∈ m, ∀ sid ∈ e.2, segments.any (fun s => s.id == sid) = true := by
  unfold membershipsLive
  rw [List.all_eq_true]
  constructor
  · intro h e he sid hsid
    have := h e he
    rw [List.all_eq_true] at this
    exact this sid hsid
  · intro h e he
    rw [List.all_eq_true]
    exact h e he

theorem mem_setFirst {e : String × List String} {m : MembershipIndex}
    {k : String} {v : List String} (h : e ∈ setFirst k v m) :
    e ∈ m ∨ e = (k, v) := by
  induction m with
  | nil => cases h
  | cons e0 t ih =>
    unfold setFirst at h
    by_cases he0 : (e0.1 == k) = true
    · rw [if_pos he0] at h
      rcases List.mem_cons.mp h with rfl | ht
      · right; rfl
      · left; exact List.mem_cons_of_mem e0 ht
    · rw [if_neg he0] at h
      rcases List.mem_cons.mp h with rfl | ht
      · left; exact List.mem_cons_self _ t
      · rcases ih ht with h1 | h2
        · left; exact List.mem_cons_of_mem e0 h1
        · right; exact h2

theorem mem_jsSet {e : String × List String} {m : MembershipIndex}
    {k : String} {v : List String} (h : e ∈ jsSet m k v) :
    e ∈ m ∨ e = (k, v) := by
  unfold jsSet at h
  split at h
  · exact mem_setFirst h
  · rcases List.mem_append.mp h with h1 | h2
    · left; exact h1
    · right; simpa using h2

theorem mem_jsDelete {e : String × List String} {m : MembershipIndex} {k : String}
    (h : e ∈ jsDelete m k) : e ∈ m :=
  (List.mem_filter.mp h).1

/-- Reading `prev[k] || []` yields either `[]` or the value of an actual entry of the
object. -/
theorem jsGet_cases (m : MembershipIndex) (k : String) :
    jsGet m k = [] ∨ (k, jsGet m k) ∈ m := by
  cases hf : m.find? (fun e => e.1 == k) with
  | none => left; simp [jsGet, hf]
  | some e =>
    right
    have hmem := List.mem_of_find?_eq_some hf
    have hk : e.1 = k := by
      have := List.find?_some hf
      simpa using this
    have hval : jsGet m k = e.2 := by simp [jsGet, hf]
    rw [hval, ← hk]
    exact hmem

/-- All values reachable in the state from a `membershipsLive` index point at
live segments, and the operations only ever store `segmentId` or sublists of
existing values; this is the per-step argument for the assignment fold. -/
theorem assignStep_live (segments : List Segment) (sid : String) (p : Int)
    (hlive : segments.any (fun seg => seg.id == sid) = true)
    (acc : MembershipIndex × Nat) (u : Nat)
    (h : membershipsLive segments acc.1 = true) :
    membershipsLive segments (assignStep sid p acc u).1 = true := by
  rw [membershipsLive_iff] at h ⊢
  have hget : ∀ x ∈ jsGet acc.1 (toString u),
      segments.any (fun s => s.id == x) = true := by
    intro x hx
    rcases jsGet_cases acc.1 (toString u) with hnil | hmem
    · rw [hnil] at hx; cases hx
    · exact h _ hmem x hx
  unfold assignStep
  split
  · split
    · intro e he sid' hsid'
      rcases mem_jsSet he with h1 | rfl
      · exact h e h1 sid' hsid'
      · rcases List.mem_append.mp hsid' with h2 | h3
        · exact hget sid' h2
        · rw [List.mem_singleton.mp h3]; exact hlive
    · exact h
  · split
    · intro e he sid' hsid'
      exact h e (mem_jsDelete he) sid' hsid'
    · intro e he sid' hsid'
      rcases mem_jsSet he with h1 | rfl
      · exact h e h1 sid' hsid'
      · exact hget sid' (List.mem_filter.mp hsid').1

theorem foldl_assign_live (segments : List Segment) (sid : String) (p : Int)
    (hlive : segments.any (fun seg => seg.id == sid) = true) :
    ∀ (l : List Nat) (acc : MembershipIndex × Nat),
      membershipsLive segments acc.1 = true →
      membershipsLive segments ((l.foldl (assignStep sid p) acc).1) = true := by
  intro l
  induction l with
  | nil => intro acc h; exact h
  | cons x t ih =>
    intro acc h
    rw [List.foldl_cons]
    exact ih (assignStep sid p acc x) (assignStep_live segments sid p hlive acc x h)

/-- C2 counterexample: the empty state satisfies the referential-integrity
invariant, yet one `addUserToSegment` call with a dead segment id produces a
membership set pointing at no live segment — the invariant is *not* preserved
by every core operation. -/
theorem membership_invariant_not_preserved_cex :
    membershipsLive [] [] = true ∧
    afterAdd [] "1" "x" = [("1", ["x"])] ∧
    membershipsLive [] [("1", ["x"])] = false := by
  refine ⟨rfl, rfl, by decide⟩

theorem live_append (segments extra : List Segment) (m : MembershipIndex)
    (hm : membershipsLive segments m = true) :
    membershipsLive (segments ++ extra) m = true := by
  rw [membershipsLive_iff] at hm ⊢
  intro e he sid hsid
  obtain ⟨s, hs, hss⟩ := List.any_eq_true.mp (hm e he sid hsid)
  exact List.any_eq_true.mpr ⟨s, List.mem_append_left extra hs, hss⟩

theorem live_map_id_preserving (segments : List Segment) (m : MembershipIndex)
    (f : Segment → Segment) (hf : ∀ s, (f s).id = s.id)
    (hm : membershipsLive segments m = true) :
    membershipsLive (segments.map f) m = true := by
  rw [membershipsLive_iff] at hm ⊢
  intro e he sid hsid
  obtain ⟨s, hs, hss⟩ := List.any_eq_true.mp (hm e he sid hsid)
  refine List.any_eq_true.mpr ⟨f s, List.mem_map_of_mem f hs, ?_⟩
  simp only [hf s]
  exact hss

/-- C2 amended: the referential-integrity invariant (`membershipsLive`) is
preserved by `createSegment`, `updateSegment`, `deleteSegment` and
`removeUserFromSegment` unconditionally, and by `addUserToSegment` and
`assignRandomUsers` provided the target `segmentId` is a live segment; the
counterexample shows it is *not* preserved by `addUserToSegment` with a dead
segment id (and the same unchecked path exists in `assignRandomUsers`). -/
theorem membership_invariant_preservation (segments : List Segment)
    (m : MembershipIndex) (hm : membershipsLive segments m = true) :
    (∀ name description freshId now : String,
      membershipsLive (afterCreate segments name description freshId now) m = true) ∧
    (∀ id newName newDescription now : String,
      membershipsLive (afterUpdate segments id newName newDescription now) m = true) ∧
    (∀ id : String,
      membershipsLive (handleDeleteSegment segments m id).1
        (handleDeleteSegment segments m id).2 = true) ∧
    (∀ u s : String, membershipsLive segments (afterRemove m u s) = true) ∧
    (∀ u s : String, segments.any (fun seg => seg.id == s) = true →
      membershipsLive segments (afterAdd m u s) = true) ∧
    (∀ s : String, ∀ p : Int, segments.any (fun seg => seg.id == s) = true →
      membershipsLive segments (afterAssign m s p) = true) := by
  refine ⟨?_, ?_, ?_, ?_, ?_, ?_⟩
  · intro name description freshId now
    unfold afterCreate handleCreateSegment
    by_cases h1 : (jsTrim name == "") = true
    · rw [if_pos h1]; exact hm
    · rw [if_neg h1]
      by_cases h2 : (segments.any fun s => s.name == name) = true
      · rw [if_pos h2]; exact hm
      · rw [if_neg h2]
        exact live_append segments _ m hm
  · intro id newName newDescription now
    unfold afterUpdate handleUpdateSegment
    by_cases h1 : (jsTrim newName == "") = true
    · rw [if_pos h1]; exact hm
    · rw [if_neg h1]
      by_cases h2 : (segments.any fun s => s.name == newName && s.id != id) = true
      · rw [if_pos h2]; exact hm
      · rw [if_neg h2]
        refine live_map_id_preserving segments m _ ?_ hm
        intro s
        by_cases hs : (s.id == id) = true
        · rw [if_pos hs]
        · rw [if_neg hs]
  · intro id
    unfold handleDeleteSegment
    dsimp only
    rw [membershipsLive_iff]
    intro e he sid hsid
    rw [List.mem_filter] at he
    rw [List.mem_map] at he
    obtain ⟨⟨e0, he0, rfl⟩, -⟩ := he
    have hsid2 := List.mem_filter.mp hsid
    rw [membershipsLive_iff] at hm
    have hlive := hm e0 he0 sid hsid2.1
    rw [List.any_eq_true] at hlive ⊢
    obtain ⟨s, hs, hss⟩ := hlive
    refine ⟨s, List.mem_filter.mpr ⟨hs, ?_⟩, hss⟩
    have hne : sid ≠ id := by simpa using hsid2.2
    have : s.id = sid := by simpa using hss
    simp [this, hne]
  · intro u s
    by_cases hg : (u == "" || s == "") = true
    · rw [afterRemove_invalid m u s hg]; exact hm
    · have hg' := bool_eq_false hg
      by_cases hnil : (jsGet m u).filter (fun id => id != s) = []
      · rw [afterRemove_valid_nil m u s hg' hnil]
        rw [membershipsLive_iff] at hm ⊢
        intro e he sid hsid
        exact hm e (mem_jsDelete he) sid hsid
      · rw [afterRemove_valid_cons m u s hg' hnil]
        rw [membershipsLive_iff] at hm ⊢
        intro e he sid hsid
        rcases mem_jsSet he with h1 | rfl
        · exact hm e h1 sid hsid
        · have hsid' := (List.mem_filter.mp hsid).1
          rcases jsGet_cases m u with hn | hmem
          · rw [hn] at hsid'; cases hsid'
          · exact hm _ hmem sid hsid'
  · intro u s hlive
    by_cases hg : (u == "" || s == "") = true
    · rw [afterAdd_invalid m u s hg]; exact hm
    · have hg' := bool_eq_false hg
      by_cases hmem2 : (jsGet m u).contains s = true
      · rw [afterAdd_valid_mem m u s hg' hmem2]; exact hm
      · rw [afterAdd_valid_notmem m u s hg' (bool_eq_false hmem2)]
        rw [membershipsLive_iff] at hm ⊢
        intro e he sid hsid
        rcases mem_jsSet he with h1 | rfl
        · exact hm e h1 sid hsid
        · rcases List.mem_append.mp hsid with h2 | h3
          · rcases jsGet_cases m u with hn | hmm
            · rw [hn] at h2; cases h2
            · exact hm _ hmm sid h2
          · rw [List.mem_singleton.mp h3]; exact hlive
  · intro s p hlive
    unfold afterAssign handleAssignRandomUsers
    by_cases h1 : (s == "") = true
    · rw [if_pos h1]; exact hm
    · rw [if_neg h1]
      by_cases h2 : (decide (p < 0) || decide (p > 100)) = true
      · rw [if_pos h2]; exact hm
      · rw [if_neg h2]
        exact foldl_assign_live segments s p hlive allPossibleUserIds (m, 0) hm

/-- Witness for C2's amended theorem at concrete inputs, one per preserved
operation. -/
theorem membership_invariant_preservation_witness :
    membershipsLive [segA] [("1", ["a"])] = true ∧
    ([segA].any (fun seg => seg.id == "a") = true) ∧
    membershipsLive [segA] (afterAdd [("1", ["a"])] "2" "a") = true ∧
    membershipsLive [segA] (afterRemove [("1", ["a"])] "1" "a") = true ∧
    membershipsLive (afterCreate [segA] "C" "" "c" "t2") [("1", ["a"])] = true ∧
    membershipsLive (handleDeleteSegment [segA] [("1", ["a"])] "a").1
      (handleDeleteSegment [segA] [("1", ["a"])] "a").2 = true :=
  ⟨by decide, by decide,
   (membership_invariant_preservation [segA] [("1", ["a"])]
     (by decide)).2.2.2.2.1 "2" "a" (by decide),
   (membership_invariant_preservation [segA] [("1", ["a"])]
     (by decide)).2.2.2.1 "1" "a",
   (membership_invariant_preservation [segA] [("1", ["a"])]
     (by decide)).1 "C" "" "c" "t2",
   (membership_invariant_preservation [segA] [("1", ["a"])]
     (by decide)).2.2.1 "a"⟩

/-! ## Claims C4, C5, C10 -/

theorem handleAssign_ok (m : MembershipIndex) (sid : String) (p : Int)
    (hsid : sid ≠ "") (hp0 : 0 ≤ p) (hp1 : p ≤ 100) :
    handleAssignRandomUsers m sid p =
      .ok (allPossibleUserIds.foldl (assignStep sid p) (m, 0)) := by
  unfold handleAssignRandomUsers
  rw [if_neg (by simpa using hsid)]
  have hb : (decide (p < 0) || decide (p > 100)) = false := by
    rw [decide_eq_false (not_lt.mpr hp0), decide_eq_false (not_lt.mpr hp1)]
    rfl
  rw [if_neg (by rw [hb]; exact Bool.false_ne_true)]

theorem natToString_ne_empty (u : Nat) : toString u ≠ "" := by
  have hrepr : toString u = (decChars u).asString := natRepr_eq_decChars u
  intro h
  rw [hrepr] at h
  have hnil : decChars u = [] := by
    have hd := congrArg String.data h
    simpa [List.asString] using hd
  exact decChars_ne_nil u hnil

/-- C4: for a live (hence non-empty) segment id and a percentage within
[0, 100], the assignment pass succeeds; afterwards a candidate user 1..1000
is a member exactly when `userId % 100 < percentage`; the returned count is
the number of candidates that were not members before and are members after;
percentage 0 leaves no candidate a member and percentage 100 makes every
candidate a member. -/
theorem assignRandomUsers_membership_spec (m : MembershipIndex) (sid : String)
    (p : Int) (hsid : sid ≠ "") (hp0 : 0 ≤ p) (hp1 : p ≤ 100) :
    ∃ m' c, handleAssignRandomUsers m sid p = .ok (m', c) ∧
      (∀ u ∈ allPossibleUserIds,
        (memberOf m' (toString u) sid = true ↔ ((u % 100 : Nat) : Int) < p)) ∧
      c = (allPossibleUserIds.filter (fun u =>
            memberOf m' (toString u) sid && !(memberOf m (toString u) sid))).length ∧
      (p = 0 → ∀ u ∈ allPossibleUserIds, memberOf m' (toString u) sid = false) ∧
      (p = 100 → ∀ u ∈ allPossibleUserIds, memberOf m' (toString u) sid = true) := by
  refine ⟨(allPossibleUserIds.foldl (assignStep sid p) (m, 0)).1,
          (allPossibleUserIds.foldl (assignStep sid p) (m, 0)).2,
          by rw [handleAssign_ok m sid p hsid hp0 hp1], ?_, ?_, ?_, ?_⟩
  · intro u hu
    have hok := assignedOk_foldl sid p allPossibleUserIds allPossibleUserIds_nodup
      (m, 0) u hu
    unfold assignedOk at hok
    by_cases hcase : ((u % 100 : Nat) : Int) < p
    · rw [if_pos hcase] at hok
      exact ⟨fun _ => hcase, fun _ => hok⟩
    · rw [if_neg hcase] at hok
      constructor
      · intro hmm
        rw [hok.1] at hmm
        exact absurd hmm Bool.false_ne_true
      · intro hc
        exact absurd hc hcase
  · rw [foldl_assign_count sid p allPossibleUserIds allPossibleUserIds_nodup m 0]
    rw [Nat.zero_add]
    apply congrArg List.length
    apply List.filter_congr
    intro u hu
    have hok := assignedOk_foldl sid p allPossibleUserIds allPossibleUserIds_nodup
      (m, 0) u hu
    unfold assignedOk at hok
    by_cases hcase : ((u % 100 : Nat) : Int) < p
    · rw [if_pos hcase] at hok
      rw [hok, decide_eq_true hcase]
    · rw [if_neg hcase] at hok
      rw [hok.1, decide_eq_false hcase]
  · rintro rfl u hu
    have hok := assignedOk_foldl sid 0 allPossibleUserIds allPossibleUserIds_nodup
      (m, 0) u hu
    unfold assignedOk at hok
    rw [if_neg (by omega)] at hok
    exact hok.1
  · rintro rfl u hu
    have hok := assignedOk_foldl sid 100 allPossibleUserIds allPossibleUserIds_nodup
      (m, 0) u hu
    unfold assignedOk at hok
    rw [if_pos (by omega)] at hok
    exact hok

/-- Witness for C4 at a concrete input. -/
theorem assignRandomUsers_membership_spec_witness :
    ("s" : String) ≠ "" ∧ (0 : Int) ≤ 30 ∧ (30 : Int) ≤ 100 ∧
    (∃ m' c, handleAssignRandomUsers [] "s" 30 = .ok (m', c) ∧
      (∀ u ∈ allPossibleUserIds,
        (memberOf m' (toString u) "s" = true ↔ ((u % 100 : Nat) : Int) < 30)) ∧
      c = (allPossibleUserIds.filter (fun u =>
            memberOf m' (toString u) "s" && !(memberOf [] (toString u) "s"))).length ∧
      ((30 : Int) = 0 → ∀ u ∈ allPossibleUserIds,
        memberOf m' (toString u) "s" = false) ∧
      ((30 : Int) = 100 → ∀ u ∈ allPossibleUserIds,
        memberOf m' (toString u) "s" = true)) :=
  ⟨by decide, by decide, by decide,
   assignRandomUsers_membership_spec [] "s" 30 (by decide) (by decide) (by decide)⟩

/-- C5: calling `assignRandomUsers` twice with identical live segment id and
in-range percentage gives the same final membership index as calling it once,
and the second call's newly-added count is 0. -/
theorem assignRandomUsers_idempotent (m : MembershipIndex) (sid : String) (p : Int)
    (hsid : sid ≠ "") (hp0 : 0 ≤ p) (hp1 : p ≤ 100) :
    ∃ m' c, handleAssignRandomUsers m sid p = .ok (m', c) ∧
      handleAssignRandomUsers m' sid p = .ok (m', 0) := by
  refine ⟨(allPossibleUserIds.foldl (assignStep sid p) (m, 0)).1,
          (allPossibleUserIds.foldl (assignStep sid p) (m, 0)).2,
          by rw [handleAssign_ok m sid p hsid hp0 hp1], ?_⟩
  rw [handleAssign_ok _ sid p hsid hp0 hp1]
  have hpost : ∀ u ∈ allPossibleUserIds,
      assignedOk sid p ((allPossibleUserIds.foldl (assignStep sid p) (m, 0)).1) u :=
    fun u hu => assignedOk_foldl sid p allPossibleUserIds allPossibleUserIds_nodup
      (m, 0) u hu
  rw [foldl_assign_id sid p allPossibleUserIds _ 0 hpost]

/-- Witness for C5 at a concrete input. -/
theorem assignRandomUsers_idempotent_witness :
    ("s" : String) ≠ "" ∧ (0 : Int) ≤ 30 ∧ (30 : Int) ≤ 100 ∧
    (∃ m' c, handleAssignRandomUsers [] "s" 30 = .ok (m', c) ∧
      handleAssignRandomUsers m' "s" 30 = .ok (m', 0)) :=
  ⟨by decide, by decide, by decide,
   assignRandomUsers_idempotent [] "s" 30 (by decide) (by decide) (by decide)⟩

theorem contains_append_ne (l : List String) (a b : String) (h : a ≠ b) :
    (l ++ [b]).contains a = l.contains a := by
  rw [contains_eq_decide_mem, contains_eq_decide_mem]
  exact decide_eq_decide.mpr (by simp [h])

theorem contains_filter_ne_other (l : List String) (s sid : String) (h : s ≠ sid) :
    (l.filter (fun id => id != sid)).contains s = l.contains s := by
  rw [contains_eq_decide_mem, contains_eq_decide_mem]
  apply decide_eq_decide.mpr
  rw [List.mem_filter]
  constructor
  · exact fun hx => hx.1
  · intro hx
    exact ⟨hx, by simpa using h⟩

theorem assignStep_memberOf_other (sid : String) (p : Int) (acc : MembershipIndex × Nat)
    (u : Nat) (k s : String) (hs : s ≠ sid) :
    memberOf (assignStep sid p acc u).1 k s = memberOf acc.1 k s := by
  by_cases hk : k = toString u
  · subst hk
    unfold assignStep
    split
    · split
      · unfold memberOf
        dsimp only
        rw [jsGet_jsSet_self]
        exact contains_append_ne _ s sid hs
      · rfl
    · rename_i hemp
      split
      · rename_i hemp2
        unfold memberOf
        dsimp only
        rw [jsGet_jsDelete_self]
        have hfilt : (jsGet acc.1 (toString u)).filter (fun id => id != sid) = [] :=
          List.isEmpty_iff.mp hemp2
        have hcon : (jsGet acc.1 (toString u)).contains s = false := by
          rw [contains_eq_decide_mem]
          apply decide_eq_false
          intro hmm
          have := List.filter_eq_nil_iff.mp hfilt s hmm
          simp only [bne_iff_ne, ne_eq, not_not] at this
          exact hs this
        rw [hcon]
        rfl
      · unfold memberOf
        dsimp only
        rw [jsGet_jsSet_self]
        exact contains_filter_ne_other _ s sid hs
  · exact assignStep_memberOf_ne sid p acc u k s hk

theorem foldl_assign_memberOf_other (sid : String) (p : Int) :
    ∀ (l : List Nat) (acc : MembershipIndex × Nat) (k s : String), s ≠ sid →
      memberOf ((l.foldl (assignStep sid p) acc).1) k s = memberOf acc.1 k s := by
  intro l
  induction l with
  | nil => intro acc k s _; rfl
  | cons x t ih =>
    intro acc k s hs
    rw [List.foldl_cons, ih (assignStep sid p acc x) k s hs,
      assignStep_memberOf_other sid p acc x k s hs]

/-- C10: the assignment pass touches only memberships of `segmentId` for the
candidate users — membership of every user in every *other* segment is
unchanged, and entries whose key is not a candidate id (including presence or
absence of the key) are entirely unchanged. -/
theorem assignRandomUsers_frame (m : MembershipIndex) (sid : String) (p : Int) :
    (∀ k s : String, s ≠ sid →
      memberOf (afterAssign m sid p) k s = memberOf m k s) ∧
    (∀ k : String, (∀ u ∈ allPossibleUserIds, toString u ≠ k) →
      (afterAssign m sid p).find? (fun e => e.1 == k) =
        m.find? (fun e => e.1 == k)) := by
  unfold afterAssign handleAssignRandomUsers
  by_cases h1 : (sid == "") = true
  · rw [if_pos h1]
    exact ⟨fun k s _ => rfl, fun k _ => rfl⟩
  · rw [if_neg h1]
    by_cases h2 : (decide (p < 0) || decide (p > 100)) = true
    · rw [if_pos h2]
      exact ⟨fun k s _ => rfl, fun k _ => rfl⟩
    · rw [if_neg h2]
      constructor
      · intro k s hs
        exact foldl_assign_memberOf_other sid p allPossibleUserIds (m, 0) k s hs
      · intro k hk
        exact find?_foldl_assign sid p allPossibleUserIds (m, 0) k hk

/-- Witness for C10 at a concrete input: membership in the unrelated segment
`b` and the entry at the non-candidate key `""` are untouched. -/
theorem assignRandomUsers_frame_witness :
    ("b" : String) ≠ "s" ∧
    (∀ u ∈ allPossibleUserIds, toString u ≠ "") ∧
    memberOf (afterAssign [("1", ["b"])] "s" 30) "1" "b" =
      memberOf [("1", ["b"])] "1" "b" ∧
    (afterAssign [("1", ["b"])] "s" 30).find? (fun e => e.1 == "") =
      [("1", ["b"])].find? (fun e => e.1 == "") :=
  ⟨by decide, fun u _ => natToString_ne_empty u,
   (assignRandomUsers_frame [("1", ["b"])] "s" 30).1 "1" "b" (by decide),
   (assignRandomUsers_frame [("1", ["b"])] "s" 30).2 ""
     (fun u _ => natToString_ne_empty u)⟩
